import Mathlib

/-!
Shallow embedding of `src/router_core/router_core.c` (qpid-dispatch router
core excerpt): the Field / buffer-chain constructor `qdr_field`, the address
registry operations `qdr_address` / `qdr_add_local_address`, the reference-list
operations `qdr_add_link_ref` / `qdr_del_link_ref` / `qdr_add_node_ref` /
`qdr_del_node_ref`, and the core lifecycle teardown `qdr_core_free`.

Bytes are modelled as `Nat`, address strings as `List Char`, pointers to
links / nodes / actions as `Nat` identifiers, and the object heap of
addresses as a list indexed by allocation order (an address's identity is its
index).  The worker thread `router_core_thread` is not part of the source
excerpt; where a claim depends on it, it is modelled from the spec and marked
as such.
-/

namespace RouterCore

/-! ## Field / buffer chain (`qdr_field`, lines 74-100) -/

/-- A `qdr_field_t`: the chain of buffers (`field->buffers`, each buffer the
list of its filled bytes) and the iterator bound by
`qd_field_iterator_buffer(DEQ_HEAD(field->buffers), 0, ilength)`, recorded as
its start offset and view length. -/
structure QdrField where
  buffers : List (List Nat)
  iterStart : Nat
  iterLength : Nat
  deriving Repr, DecidableEq

/-- The `while (length > 0)` loop of `qdr_field`: each iteration allocates a
buffer of capacity `C`, copies `copy = min cap length` bytes into it, and
appends it at the tail of the chain.  `fuel` bounds the number of loop
iterations; since each iteration consumes at least one byte whenever
`0 < C`, `fuel = text.length` suffices to run the loop to completion. -/
def fieldChunksAux (C : Nat) : Nat → List Nat → List (List Nat)
  | _, [] => []
  | 0, _ => []
  | fuel + 1, text =>
      let copy := min C text.length
      text.take copy :: fieldChunksAux C fuel (text.drop copy)

/-- `qdr_field(text)`: returns nothing for zero-length input (line 79-80),
otherwise chunks the bytes across fixed-capacity buffers and binds one
iterator over the whole span starting at the head buffer, offset 0,
length `ilength` (line 97).  `C` is the pool-defined buffer capacity
`qd_buffer_capacity`. -/
def qdr_field (C : Nat) (text : List Nat) : Option QdrField :=
  if text.length = 0 then
    none
  else
    some { buffers := fieldChunksAux C text.length text
           iterStart := 0
           iterLength := text.length }

/-- Reading the bound iterator end to end: the bytes of the buffer chain, in
chain order, from the start offset, for the view length. -/
def iteratorReadAll (f : QdrField) : List Nat :=
  (f.buffers.flatten.drop f.iterStart).take f.iterLength

/-- Nat-level image of the chunking loop: the sequence of per-buffer filled
byte counts produced for an input of length `L` (same recursion as
`fieldChunksAux`, tracking only lengths). -/
def chunkLens (C : Nat) : Nat → Nat → List Nat
  | _, 0 => []
  | 0, _ + 1 => []
  | fuel + 1, L + 1 =>
      let copy := min C (L + 1)
      copy :: chunkLens C fuel (L + 1 - copy)

/-! ## Address registry (`qdr_address`, `qdr_add_local_address`, lines 113-142) -/

/-- A `qdr_address_t`.  `ZERO(addr)` gives `false` / `none` / empty-list
fields; `qdr_address` then sets `semantics` and `forwarder`.  `rlinks` and
`rnodes` are the two reference lists of the address (interested links and
interested remote nodes); `hash_handle` is the handle stored by
`qd_hash_insert`, modelled as the key the entry was inserted under. -/
structure QdrAddress where
  semantics : Nat
  forwarder : Nat
  block_deletion : Bool
  hash_handle : Option (List Char)
  rlinks : List Nat
  rnodes : List Nat
  deriving Repr, DecidableEq

/-- `qdr_address(semantics)` (lines 113-120): allocate, zero, set the
semantics, and resolve the forwarder from the semantics via the external
resolver `fw` (`qd_router_get_forwarder`). -/
def qdr_address (fw : Nat → Nat) (semantics : Nat) : QdrAddress :=
  { semantics := semantics
    forwarder := fw semantics
    block_deletion := false
    hash_handle := none
    rlinks := []
    rnodes := [] }

/-- The registry part of a `qdr_core_t`: the hash index `addr_hash` (keys to
address identities), the insertion-ordered address list `addrs` (identities,
head first), and the heap of allocated addresses (an address's identity is
its index in allocation order). -/
structure CoreState where
  addr_hash : List (List Char × Nat)
  addrs : List Nat
  heap : List QdrAddress
  deriving Repr, DecidableEq

/-- `qd_hash_retrieve`: look the key up in the hash index. -/
def qd_hash_retrieve (hash : List (List Char × Nat)) (key : List Char) : Option Nat :=
  match hash with
  | [] => none
  | (k, v) :: rest => if k = key then some v else qd_hash_retrieve rest key

/-- The key built by `snprintf(addr_string, 1000, "L%s", address)`
(line 129): the marker character 'L' followed by the address, truncated by
the 1000-byte buffer to at most 999 characters (one byte is reserved for the
terminating NUL). -/
def localKeyOf (address : List Char) : List Char :=
  ('L' :: address).take 999

/-- `qdr_add_local_address(core, address, semantics)` (lines 123-142): build
the 'L'-keyed iterator, retrieve from the hash; on miss, allocate a new
address via `qdr_address`, insert it into the hash index and at the tail of
`core->addrs`, and set `block_deletion = true`.  Returns the updated core and
the identity of the returned address. -/
def qdr_add_local_address (fw : Nat → Nat) (core : CoreState)
    (address : List Char) (semantics : Nat) : CoreState × Nat :=
  let key := localKeyOf address
  match qd_hash_retrieve core.addr_hash key with
  | some id => (core, id)
  | none =>
      let addr := qdr_address fw semantics
      let id := core.heap.length
      ({ addr_hash := core.addr_hash ++ [(key, id)]
         addrs := core.addrs ++ [id]
         heap := core.heap ++
           [{ addr with hash_handle := some key, block_deletion := true }] },
       id)

/-- An empty registry, as used by the test scenarios. -/
def emptyCore : CoreState :=
  { addr_hash := [], addrs := [], heap := [] }

/-! ## Reference lists (`qdr_add_link_ref` etc., lines 145-167) -/

/-- A `qdr_link_ref_t`: the allocation identity of the entry and the link it
references. -/
structure QdrLinkRef where
  refId : Nat
  link : Nat
  deriving Repr, DecidableEq

/-- A link reference list together with the allocator of entry identities and
the `link->ref` back-pointers of the link objects (link identity to the
identity of its reference entry). -/
structure LinkRefState where
  nextRef : Nat
  list : List QdrLinkRef
  linkRef : List (Nat × Nat)
  deriving Repr, DecidableEq

def emptyLinkRefState : LinkRefState :=
  { nextRef := 0, list := [], linkRef := [] }

/-- `qdr_add_link_ref(ref_list, link)` (lines 145-152): allocate a new
reference entry, point it at the link, store the entry's identity on the link
(`link->ref = ref`), and insert the entry at the tail of the list. -/
def qdr_add_link_ref (st : LinkRefState) (link : Nat) : LinkRefState :=
  { nextRef := st.nextRef + 1
    list := st.list ++ [{ refId := st.nextRef, link := link }]
    linkRef := (link, st.nextRef) :: st.linkRef }

/-- `qdr_del_link_ref(ref_list, link)` (lines 155-157): the function body is
empty in the source, so the state is returned unchanged. -/
def qdr_del_link_ref (st : LinkRefState) (link : Nat) : LinkRefState :=
  st

/-- A `qdr_router_ref_list_t` of remote-node references. -/
structure NodeRefState where
  list : List Nat
  deriving Repr, DecidableEq

def emptyNodeRefState : NodeRefState :=
  { list := [] }

/-- `qdr_add_node_ref(ref_list, rnode)` (lines 160-162): the function body is
empty in the source, so the state is returned unchanged. -/
def qdr_add_node_ref (st : NodeRefState) (rnode : Nat) : NodeRefState :=
  st

/-- `qdr_del_node_ref(ref_list, rnode)` (lines 165-167): the function body is
empty in the source, so the state is returned unchanged. -/
def qdr_del_node_ref (st : NodeRefState) (rnode : Nat) : NodeRefState :=
  st

/-! ## Core lifecycle (`qdr_core`, `qdr_core_free`, lines 29-68) -/

/-- The threading state of a `qdr_core_t`: the `running` flag, the FIFO
action list (identities of pending actions, head first), and the actions the
worker has executed so far, in execution order. -/
structure CoreSys where
  running : Bool
  queue : List Nat
  executed : List Nat
  deriving Repr, DecidableEq

/-- The threading state established by `qdr_core()` (lines 29-49):
`running = true` and an empty action list. -/
def qdr_core_init : CoreSys :=
  { running := true, queue := [], executed := [] }

/-- The observable events of `qdr_core_free`, one per teardown call. -/
inductive SysEv where
  | setRunningFalse
  | condSignal
  | threadJoin
  | threadFree
  | condFree
  | mutexFree
  | freeCore
  deriving Repr, DecidableEq

/-- State-and-trace pair threaded through the teardown sequence. -/
structure FreeSt where
  sys : CoreSys
  trace : List SysEv
  deriving Repr, DecidableEq

/-- `core->running = false` (line 57). -/
def set_running_false (s : FreeSt) : FreeSt :=
  { sys := { s.sys with running := false }
    trace := s.trace ++ [SysEv.setRunningFalse] }

/-- `sys_cond_signal(core->cond)` (line 58): wakes the worker; no state of
this model changes. -/
def sys_cond_signal (s : FreeSt) : FreeSt :=
  { s with trace := s.trace ++ [SysEv.condSignal] }

/-- Modelled from the spec: the worker loop of `router_core_thread`, whose
definition is not part of the source excerpt (only its use at line 46).
Spec section 4.1: with `running = false`, the worker dequeues and executes
one action at a time until the list is empty, then exits.  The first
argument is the remaining action list, the second the actions executed so
far. -/
def workerDrainAux : List Nat → List Nat → List Nat
  | [], executed => executed
  | a :: rest, executed => workerDrainAux rest (executed ++ [a])

/-- `sys_thread_join(core->thread)` (line 59): returns once the worker
exits.  Modelled from the spec: with `running` already false the worker
drains the queue and exits; with `running` still true the worker would keep
waiting and the join would block (that case is never reached from
`qdr_core_free`, which clears `running` first, and is modelled as returning
the state unchanged). -/
def sys_thread_join (s : FreeSt) : FreeSt :=
  if s.sys.running then
    { s with trace := s.trace ++ [SysEv.threadJoin] }
  else
    { sys := { s.sys with
                 queue := []
                 executed := workerDrainAux s.sys.queue s.sys.executed }
      trace := s.trace ++ [SysEv.threadJoin] }

/-- `sys_thread_free(core->thread)` (line 64). -/
def sys_thread_free (s : FreeSt) : FreeSt :=
  { s with trace := s.trace ++ [SysEv.threadFree] }

/-- `sys_cond_free(core->cond)` (line 65). -/
def sys_cond_free (s : FreeSt) : FreeSt :=
  { s with trace := s.trace ++ [SysEv.condFree] }

/-- `sys_mutex_free(core->lock)` (line 66). -/
def sys_mutex_free (s : FreeSt) : FreeSt :=
  { s with trace := s.trace ++ [SysEv.mutexFree] }

/-- `free(core)` (line 67). -/
def free_core (s : FreeSt) : FreeSt :=
  { s with trace := s.trace ++ [SysEv.freeCore] }

/-- `qdr_core_free(core)` (lines 52-68): the teardown calls in source
order. -/
def qdr_core_free (s : CoreSys) : FreeSt :=
  free_core (sys_mutex_free (sys_cond_free (sys_thread_free
    (sys_thread_join (sys_cond_signal (set_running_false { sys := s, trace := [] }))))))

theorem map_length_fieldChunksAux (C : Nat) :
    ∀ (n : Nat) (s : List Nat),
      (fieldChunksAux C n s).map List.length = chunkLens C n s.length := by
  intro n
  induction n with
  | zero =>
      intro s
      cases s <;> rfl
  | succ fuel ih =>
      intro s
      cases s with
      | nil => rfl
      | cons a rest =>
          simp only [fieldChunksAux, List.map_cons, List.length_cons, chunkLens]
          congr 1
          · simp [List.length_take]
          · rw [ih]
            simp [List.length_drop]

theorem flatten_fieldChunksAux (C : Nat) (hC : 0 < C) :
    ∀ (n : Nat) (s : List Nat), s.length ≤ n →
      (fieldChunksAux C n s).flatten = s := by
  intro n
  induction n with
  | zero =>
      intro s hs
      have : s = [] := List.eq_nil_of_length_eq_zero (Nat.le_zero.mp hs)
      subst this; rfl
  | succ fuel ih =>
      intro s hs
      cases s with
      | nil => rfl
      | cons a rest =>
          simp only [fieldChunksAux, List.flatten_cons]
          have hlen : ((a :: rest).drop (min C (a :: rest).length)).length ≤ fuel := by
            simp only [List.length_drop, List.length_cons]
            simp only [List.length_cons] at hs
            omega
          rw [ih _ hlen, List.take_append_drop]

theorem chunkLens_length (C : Nat) (hC : 0 < C) :
    ∀ (n L : Nat), L ≤ n →
      (chunkLens C n L).length = (L + C - 1) / C := by
  intro n
  induction n with
  | zero =>
      intro L hL
      have : L = 0 := Nat.le_zero.mp hL
      subst this
      simp only [chunkLens, List.length_nil]
      exact (Nat.div_eq_of_lt (by omega)).symm
  | succ fuel ih =>
      intro L hL
      cases L with
      | zero =>
          simp only [chunkLens, List.length_nil]
          exact (Nat.div_eq_of_lt (by omega)).symm
      | succ M =>
          simp only [chunkLens, List.length_cons]
          rw [ih ((M + 1) - min C (M + 1)) (by omega)]
          rcases le_or_lt (M + 1) C with hle | hgt
          · have h1 : min C (M + 1) = M + 1 := by omega
            rw [h1]
            simp only [Nat.sub_self]
            have h2 : (0 + C - 1) / C = 0 := Nat.div_eq_of_lt (by omega)
            have h3 : (M + 1 + C - 1) / C = 1 :=
              Nat.div_eq_of_lt_le (by omega) (by omega)
            omega
          · have h1 : min C (M + 1) = C := by omega
            have hgt1 : 1 ≤ M + 1 - C := by omega
            rw [h1]
            have h2 : M + 1 - C + C - 1 = (M + 1 - C - 1) + C := by omega
            have h3 : M + 1 + C - 1 = (M + 1 - 1) + C := by omega
            have h4 : M + 1 - C - 1 + C = M + 1 - 1 := by omega
            rw [h2, Nat.add_div_right _ hC, h3, Nat.add_div_right _ hC, ← h4,
              Nat.add_div_right _ hC]

theorem chunkLens_ne_nil (C : Nat) :
    ∀ (n L : Nat), 1 ≤ L → L ≤ n → chunkLens C n L ≠ [] := by
  intro n L h1 h2
  cases n with
  | zero => omega
  | succ fuel =>
      cases L with
      | zero => omega
      | succ M => simp [chunkLens]

theorem chunkLens_dropLast (C : Nat) (hC : 0 < C) :
    ∀ (n L : Nat), L ≤ n →
      ∀ x ∈ (chunkLens C n L).dropLast, x = C := by
  intro n
  induction n with
  | zero =>
      intro L hL
      have : L = 0 := Nat.le_zero.mp hL
      subst this
      simp [chunkLens]
  | succ fuel ih =>
      intro L hL
      cases L with
      | zero => simp [chunkLens]
      | succ M =>
          intro x hx
          simp only [chunkLens] at hx
          rcases le_or_lt (M + 1) C with hle | hgt
          · have h1 : min C (M + 1) = M + 1 := by omega
            rw [h1] at hx
            simp only [Nat.sub_self] at hx
            simp [chunkLens, List.dropLast] at hx
          · have h1 : min C (M + 1) = C := by omega
            rw [h1] at hx
            have hne : chunkLens C fuel (M + 1 - C) ≠ [] :=
              chunkLens_ne_nil C fuel (M + 1 - C) (by omega) (by omega)
            rw [List.dropLast_cons_of_ne_nil hne] at hx
            rcases List.mem_cons.mp hx with h | h
            · exact h
            · exact ih (M + 1 - C) (by omega) x h

theorem chunkLens_getLast? (C : Nat) (hC : 0 < C) :
    ∀ (n L : Nat), 1 ≤ L → L ≤ n →
      (chunkLens C n L).getLast? =
        some (L - C * ((chunkLens C n L).length - 1)) := by
  intro n
  induction n with
  | zero => intro L h1 h2; omega
  | succ fuel ih =>
      intro L h1 h2
      cases L with
      | zero => omega
      | succ M =>
          rcases le_or_lt (M + 1) C with hle | hgt
          · have h3 : min C (M + 1) = M + 1 := by omega
            simp only [chunkLens, h3, Nat.sub_self]
            simp [chunkLens]
          · have h3 : min C (M + 1) = C := by omega
            have hne : chunkLens C fuel (M + 1 - C) ≠ [] :=
              chunkLens_ne_nil C fuel (M + 1 - C) (by omega) (by omega)
            have hrec := ih (M + 1 - C) (by omega) (by omega)
            have hlen1 : 1 ≤ (chunkLens C fuel (M + 1 - C)).length :=
              List.length_pos.mpr hne
            simp only [chunkLens, h3]
            rw [List.getLast?_cons, hrec]
            simp only [Option.getD_some, List.length_cons]
            congr 1
            have hmul : C * ((chunkLens C fuel (M + 1 - C)).length + 1 - 1)
                = C * ((chunkLens C fuel (M + 1 - C)).length - 1) + C := by
              have h5 : (chunkLens C fuel (M + 1 - C)).length + 1 - 1
                  = ((chunkLens C fuel (M + 1 - C)).length - 1) + 1 := by omega
              rw [h5, Nat.mul_succ]
            rw [hmul]
            omega

theorem qd_hash_retrieve_append_self (hash : List (List Char × Nat))
    (key : List Char) (v : Nat) (h : qd_hash_retrieve hash key = none) :
    qd_hash_retrieve (hash ++ [(key, v)]) key = some v := by
  induction hash with
  | nil => simp [qd_hash_retrieve]
  | cons p rest ih =>
      obtain ⟨k, w⟩ := p
      simp only [qd_hash_retrieve] at h
      by_cases hk : k = key
      · simp [hk] at h
      · simp only [hk, if_false] at h
        simp only [List.cons_append, qd_hash_retrieve, hk, if_false]
        exact ih h

theorem qdr_add_local_address_hit (fw : Nat → Nat) (core : CoreState)
    (address : List Char) (semantics : Nat) (id : Nat)
    (h : qd_hash_retrieve core.addr_hash (localKeyOf address) = some id) :
    qdr_add_local_address fw core address semantics = (core, id) := by
  simp [qdr_add_local_address, h]

theorem qd_hash_retrieve_after_add (fw : Nat → Nat) (core : CoreState)
    (address : List Char) (semantics : Nat) :
    qd_hash_retrieve (qdr_add_local_address fw core address semantics).1.addr_hash
        (localKeyOf address) =
      some (qdr_add_local_address fw core address semantics).2 := by
  rcases h : qd_hash_retrieve core.addr_hash (localKeyOf address) with _ | id
  · simp only [qdr_add_local_address, h]
    exact qd_hash_retrieve_append_self _ _ _ h
  · simp [qdr_add_local_address, h]

theorem qdr_add_local_address_same_key (fw : Nat → Nat) (core : CoreState)
    (a1 a2 : List Char) (s1 s2 : Nat) (hk : localKeyOf a2 = localKeyOf a1) :
    qdr_add_local_address fw (qdr_add_local_address fw core a1 s1).1 a2 s2 =
      qdr_add_local_address fw core a1 s1 := by
  have h := qd_hash_retrieve_after_add fw core a1 s1
  rw [← hk] at h
  exact qdr_add_local_address_hit fw _ a2 s2 _ h

/-- Claim C1: for an address whose registry key is not yet present,
`qdr_add_local_address` constructs a new `qdr_address_t` carrying the given
semantics with its forwarder resolved from that semantics, inserts it into
the hash index and at the tail of the insertion-ordered address list, sets
`block_deletion = true` on it, and returns it; a subsequent hash lookup of
the same key finds that address, whose two reference lists are both
empty. -/
theorem qdr_add_local_address_miss_creates (fw : Nat → Nat) (core : CoreState)
    (address : List Char) (semantics : Nat)
    (h : qd_hash_retrieve core.addr_hash (localKeyOf address) = none) :
    (qdr_add_local_address fw core address semantics).2 = core.heap.length ∧
    (qdr_add_local_address fw core address semantics).1.heap[
        (qdr_add_local_address fw core address semantics).2]? =
      some { semantics := semantics
             forwarder := fw semantics
             block_deletion := true
             hash_handle := some (localKeyOf address)
             rlinks := []
             rnodes := [] } ∧
    (qdr_add_local_address fw core address semantics).1.addrs =
      core.addrs ++ [(qdr_add_local_address fw core address semantics).2] ∧
    qd_hash_retrieve (qdr_add_local_address fw core address semantics).1.addr_hash
        (localKeyOf address) =
      some (qdr_add_local_address fw core address semantics).2 := by
  refine ⟨?_, ?_, ?_, qd_hash_retrieve_after_add fw core address semantics⟩
  · simp [qdr_add_local_address, h]
  · simp only [qdr_add_local_address, h]
    exact List.getElem?_concat_length _ _
  · simp [qdr_add_local_address, h]

/-- Witness for C1: the `"Lnews"` scenario on an empty registry. -/
theorem qdr_add_local_address_miss_creates_witness :
    qd_hash_retrieve emptyCore.addr_hash
        (localKeyOf ['n', 'e', 'w', 's']) = none ∧
    ((qdr_add_local_address (fun n => n) emptyCore ['n', 'e', 'w', 's'] 7).2 =
        emptyCore.heap.length ∧
      (qdr_add_local_address (fun n => n) emptyCore ['n', 'e', 'w', 's'] 7).1.heap[
          (qdr_add_local_address (fun n => n) emptyCore ['n', 'e', 'w', 's'] 7).2]? =
        some { semantics := 7
               forwarder := (fun n => n) 7
               block_deletion := true
               hash_handle := some (localKeyOf ['n', 'e', 'w', 's'])
               rlinks := []
               rnodes := [] } ∧
      (qdr_add_local_address (fun n => n) emptyCore ['n', 'e', 'w', 's'] 7).1.addrs =
        emptyCore.addrs ++
          [(qdr_add_local_address (fun n => n) emptyCore ['n', 'e', 'w', 's'] 7).2] ∧
      qd_hash_retrieve
          (qdr_add_local_address (fun n => n) emptyCore ['n', 'e', 'w', 's'] 7).1.addr_hash
          (localKeyOf ['n', 'e', 'w', 's']) =
        some (qdr_add_local_address (fun n => n) emptyCore ['n', 'e', 'w', 's'] 7).2) :=
  ⟨rfl, qdr_add_local_address_miss_creates (fun n => n) emptyCore
    ['n', 'e', 'w', 's'] 7 rfl⟩

/-- Claim C2: two `qdr_add_local_address` calls with the same address return
the same address identity, and the second call leaves the registry entirely
unchanged; the second call's semantics argument has no effect
(first-writer-wins). -/
theorem qdr_add_local_address_first_writer_wins (fw : Nat → Nat)
    (core : CoreState) (address : List Char) (s1 s2 : Nat) :
    qdr_add_local_address fw (qdr_add_local_address fw core address s1).1 address s2 =
      qdr_add_local_address fw core address s1 :=
  qdr_add_local_address_same_key fw core address address s1 s2 rfl

/-- Claim C3, counterexample: the registry does not use the supplied address
unmodified as the hash key.  After registering `"news"` on an empty registry,
a hash lookup for `"news"` finds nothing, while a lookup for the marker-keyed
`"Lnews"` finds the new address: the registry applied the local-scope marker
itself. -/
theorem qdr_add_local_address_key_not_raw :
    qd_hash_retrieve
        (qdr_add_local_address (fun n => n) emptyCore ['n', 'e', 'w', 's'] 0).1.addr_hash
        ['n', 'e', 'w', 's'] = none ∧
    qd_hash_retrieve
        (qdr_add_local_address (fun n => n) emptyCore ['n', 'e', 'w', 's'] 0).1.addr_hash
        ('L' :: ['n', 'e', 'w', 's']) =
      some (qdr_add_local_address (fun n => n) emptyCore ['n', 'e', 'w', 's'] 0).2 := by
  decide

/-- Claim C3 as amended: the registry itself applies the local-scope marker:
the hash key it uses for a supplied address is the marker character 'L'
followed by the address (truncated to 999 characters by the fixed key
buffer), and the registered address is found under that derived key. -/
theorem qdr_add_local_address_key_has_marker (fw : Nat → Nat) (core : CoreState)
    (address : List Char) (semantics : Nat) :
    localKeyOf address = ('L' :: address).take 999 ∧
    qd_hash_retrieve (qdr_add_local_address fw core address semantics).1.addr_hash
        (('L' :: address).take 999) =
      some (qdr_add_local_address fw core address semantics).2 :=
  ⟨rfl, qd_hash_retrieve_after_add fw core address semantics⟩

/-- Claim C10: the key buffer is 1000 bytes and `snprintf` truncates, so any
address longer than 998 characters loses its tail: the derived key is
strictly shorter than the marker-plus-address text, and any two addresses
agreeing on their first 998 characters get the same key and hence the same
registry entry (a second registration returns the first address and changes
nothing). -/
theorem qdr_add_local_address_truncates_key (fw : Nat → Nat) (core : CoreState)
    (a1 a2 : List Char) (s1 s2 : Nat)
    (hlen : 998 < a1.length) (hagree : a1.take 998 = a2.take 998) :
    localKeyOf a1 = localKeyOf a2 ∧
    (localKeyOf a1).length < ('L' :: a1).length ∧
    qdr_add_local_address fw (qdr_add_local_address fw core a1 s1).1 a2 s2 =
      qdr_add_local_address fw core a1 s1 := by
  have hkey : ∀ a : List Char, localKeyOf a = 'L' :: a.take 998 := by
    intro a
    simp [localKeyOf, List.take_succ_cons]
  have hk : localKeyOf a1 = localKeyOf a2 := by
    rw [hkey, hkey, hagree]
  refine ⟨hk, ?_, qdr_add_local_address_same_key fw core a1 a2 s1 s2 hk.symm⟩
  rw [hkey]
  simp only [List.length_cons, List.length_take]
  omega

/-- Witness for C10: two distinct 999-character addresses sharing their
first 998 characters collide in the registry. -/
theorem qdr_add_local_address_truncates_key_witness :
    998 < (List.replicate 999 'a').length ∧
    (List.replicate 999 'a').take 998 =
      (List.replicate 998 'a' ++ ['b']).take 998 ∧
    (localKeyOf (List.replicate 999 'a') =
        localKeyOf (List.replicate 998 'a' ++ ['b']) ∧
      (localKeyOf (List.replicate 999 'a')).length <
        ('L' :: List.replicate 999 'a').length ∧
      qdr_add_local_address (fun n => n)
          (qdr_add_local_address (fun n => n) emptyCore (List.replicate 999 'a') 1).1
          (List.replicate 998 'a' ++ ['b']) 2 =
        qdr_add_local_address (fun n => n) emptyCore (List.replicate 999 'a') 1) := by
  have h1 : (List.replicate 999 'a').take 998 = List.replicate 998 'a' := by
    rw [List.take_replicate]
    norm_num
  have h2 : (List.replicate 998 'a' ++ ['b']).take 998 = List.replicate 998 'a' := by
    have h := List.take_left (List.replicate 998 'a') ['b']
    rwa [List.length_replicate] at h
  refine ⟨by rw [List.length_replicate]; omega, by rw [h1, h2], ?_⟩
  exact qdr_add_local_address_truncates_key (fun n => n) emptyCore
    (List.replicate 999 'a') (List.replicate 998 'a' ++ ['b']) 1 2
    (by rw [List.length_replicate]; omega) (by rw [h1, h2])

theorem qdr_field_eq_some (C : Nat) (s : List Nat) (hs : s ≠ []) :
    qdr_field C s =
      some { buffers := fieldChunksAux C s.length s
             iterStart := 0
             iterLength := s.length } := by
  have h : ¬ s.length = 0 := by
    intro h
    exact hs (List.eq_nil_of_length_eq_zero h)
  simp [qdr_field, h]

/-- Claim C4: for a non-empty input of length `L` and buffer capacity
`C > 0`, `qdr_field` produces exactly `⌈L / C⌉` buffers
(`(L + C - 1) / C` in integer arithmetic); every buffer except the last is
filled to capacity `C` and the last holds the remainder
`L - C * (count - 1)`; in particular a 10000-byte input with capacity 4096
yields exactly the three buffer fills 4096, 4096, 1808 in order. -/
theorem qdr_field_buffer_counts (C : Nat) (s : List Nat)
    (hC : 0 < C) (hs : s ≠ []) :
    ∃ f, qdr_field C s = some f ∧
      f.buffers.length = (s.length + C - 1) / C ∧
      (∀ b ∈ f.buffers.dropLast, b.length = C) ∧
      f.buffers.getLast?.map List.length =
        some (s.length - C * (f.buffers.length - 1)) ∧
      (qdr_field 4096 (List.replicate 10000 0)).map
          (fun g => g.buffers.map List.length) =
        some [4096, 4096, 1808] := by
  refine ⟨_, qdr_field_eq_some C s hs, ?_, ?_, ?_, ?_⟩
  · have h := congrArg List.length (map_length_fieldChunksAux C s.length s)
    rw [List.length_map] at h
    rw [h, chunkLens_length C hC s.length s.length (Nat.le_refl _)]
  · intro b hb
    have hmem : b.length ∈ (chunkLens C s.length s.length).dropLast := by
      rw [← map_length_fieldChunksAux C s.length s, ← List.map_dropLast]
      exact List.mem_map_of_mem List.length hb
    exact chunkLens_dropLast C hC s.length s.length (Nat.le_refl _) _ hmem
  · have hlen1 : 1 ≤ s.length := List.length_pos.mpr hs
    have h1 := List.getLast?_map List.length (fieldChunksAux C s.length s)
    rw [map_length_fieldChunksAux C s.length s] at h1
    rw [← h1, chunkLens_getLast? C hC s.length s.length hlen1 (Nat.le_refl _)]
    have h2 := congrArg List.length (map_length_fieldChunksAux C s.length s)
    rw [List.length_map] at h2
    rw [h2]
  · rw [qdr_field_eq_some 4096 (List.replicate 10000 0)
      (List.replicate_succ_ne_nil 9999 0)]
    simp only [Option.map_some']
    rw [map_length_fieldChunksAux 4096]
    simp only [List.length_replicate]
    decide

/-- Witness for C4 at capacity 2 and input `[1, 2, 3]`. -/
theorem qdr_field_buffer_counts_witness :
    0 < 2 ∧ ([1, 2, 3] : List Nat) ≠ [] ∧
    (∃ f, qdr_field 2 [1, 2, 3] = some f ∧
      f.buffers.length = (([1, 2, 3] : List Nat).length + 2 - 1) / 2 ∧
      (∀ b ∈ f.buffers.dropLast, b.length = 2) ∧
      f.buffers.getLast?.map List.length =
        some (([1, 2, 3] : List Nat).length - 2 * (f.buffers.length - 1)) ∧
      (qdr_field 4096 (List.replicate 10000 0)).map
          (fun g => g.buffers.map List.length) =
        some [4096, 4096, 1808]) :=
  ⟨by decide, by decide, qdr_field_buffer_counts 2 [1, 2, 3] (by decide) (by decide)⟩

/-- Claim C5: for every non-empty byte string, the sum of filled bytes
across the buffer chain of `qdr_field` equals the input length, and reading
the bound iterator from start to end reproduces the input exactly. -/
theorem qdr_field_reproduces_input (C : Nat) (s : List Nat)
    (hC : 0 < C) (hs : s ≠ []) :
    ∃ f, qdr_field C s = some f ∧
      (f.buffers.map List.length).sum = s.length ∧
      iteratorReadAll f = s := by
  refine ⟨_, qdr_field_eq_some C s hs, ?_, ?_⟩
  · rw [← List.length_flatten,
      flatten_fieldChunksAux C hC s.length s (Nat.le_refl _)]
  · simp only [iteratorReadAll, List.drop_zero]
    rw [flatten_fieldChunksAux C hC s.length s (Nat.le_refl _), List.take_length]

/-- Witness for C5 at capacity 3 and a 6-byte input (an exact multiple of
the capacity). -/
theorem qdr_field_reproduces_input_witness :
    0 < 3 ∧ ([10, 20, 30, 40, 50, 60] : List Nat) ≠ [] ∧
    (∃ f, qdr_field 3 [10, 20, 30, 40, 50, 60] = some f ∧
      (f.buffers.map List.length).sum = ([10, 20, 30, 40, 50, 60] : List Nat).length ∧
      iteratorReadAll f = [10, 20, 30, 40, 50, 60]) :=
  ⟨by decide, by decide,
    qdr_field_reproduces_input 3 [10, 20, 30, 40, 50, 60] (by decide) (by decide)⟩

/-- Claim C6: for zero-length input `qdr_field` returns nothing: `none`, an
absent value rather than an error, with no field and no buffers
allocated. -/
theorem qdr_field_empty_input_none (C : Nat) : qdr_field C [] = none :=
  rfl

/-- Claim C7, failing input: the body of `qdr_del_link_ref` is empty in the
source, so deleting the one link present in a one-entry reference list
leaves the list unchanged, still of length 1, where the claim requires the
entry to be removed and freed (length 0). -/
theorem qdr_del_link_ref_empty_body :
    qdr_del_link_ref (qdr_add_link_ref emptyLinkRefState 0) 0 =
      qdr_add_link_ref emptyLinkRefState 0 ∧
    (qdr_del_link_ref (qdr_add_link_ref emptyLinkRefState 0) 0).list.length = 1 :=
  ⟨rfl, rfl⟩

/-- Claim C8, failing input: `qdr_add_link_ref` does link a new entry at the
tail and stores its identity on the link, but the body of
`qdr_add_node_ref` is empty in the source, so adding a node reference to an
empty list leaves the list empty, where the claim requires a new tail
entry. -/
theorem qdr_add_node_ref_empty_body :
    (qdr_add_link_ref emptyLinkRefState 5).list =
      [{ refId := 0, link := 5 }] ∧
    (qdr_add_link_ref emptyLinkRefState 5).linkRef = [(5, 0)] ∧
    qdr_add_node_ref emptyNodeRefState 0 = emptyNodeRefState ∧
    (qdr_add_node_ref emptyNodeRefState 0).list.length = 0 :=
  ⟨rfl, rfl, rfl, rfl⟩

theorem workerDrainAux_eq (q : List Nat) :
    ∀ e : List Nat, workerDrainAux q e = e ++ q := by
  induction q with
  | nil => intro e; simp [workerDrainAux]
  | cons a rest ih =>
      intro e
      rw [workerDrainAux, ih]
      simp

/-- Claim C9: `qdr_core_free` performs its teardown in order: clear
`running`, signal the condition variable once, join the worker, then free
the thread handle, the condition variable, the mutex, and finally the core;
joining drains the action queue, so every action enqueued before teardown is
executed exactly once, in order, before the worker exits (worker loop
modelled from the spec). -/
theorem qdr_core_free_order_and_drains (s : CoreSys) :
    (qdr_core_free s).trace =
      [SysEv.setRunningFalse, SysEv.condSignal, SysEv.threadJoin,
       SysEv.threadFree, SysEv.condFree, SysEv.mutexFree, SysEv.freeCore] ∧
    (qdr_core_free s).sys.executed = s.executed ++ s.queue ∧
    (qdr_core_free s).sys.queue = [] ∧
    (qdr_core_free s).sys.running = false := by
  simp [qdr_core_free, free_core, sys_mutex_free, sys_cond_free,
    sys_thread_free, sys_thread_join, sys_cond_signal, set_running_false,
    workerDrainAux_eq]

end RouterCore
